import Mathlib

/-!
Shallow embedding of parts of the h-baselines repository:
replay-buffer and target-update core (spec-modelled where the class
implementations live outside the provided sources), the MADDPG placeholder
methods of the multi-agent TD3 and SAC policies, the vehicle-count loop of
the ring-road parameter file, the environment-name selection of the
single-lane highway parameter file, and the unknown-argument parser of the
PPO command-line utilities.
-/

namespace HBaselines

/- ------------------------------------------------------------------ -/
/- hbaselines/envs/mixed_autonomy/params/highway_single.py            -/
/- ------------------------------------------------------------------ -/

/-- The environment classes that `highway_single.get_flow_params` can select
as `env_name`. -/
inductive HighwayEnv where
  | avOpenMultiAgentEnv
  | avOpenEnv
  | avOpenImitationEnv
deriving DecidableEq

/-- The `env_name` selection of `highway_single.get_flow_params`
(lines 142-151): `if multiagent: (None if imitation else
AVOpenMultiAgentEnv) else: (AVOpenEnv if imitation else
AVOpenImitationEnv)`.  `None` (the FIXME branch) is modelled as `none`. -/
def highwaySingleEnvName (multiagent imitation : Bool) : Option HighwayEnv :=
  if multiagent then
    if imitation then none
    else some HighwayEnv.avOpenMultiAgentEnv
  else
    if imitation then some HighwayEnv.avOpenEnv
    else some HighwayEnv.avOpenImitationEnv

/- ------------------------------------------------------------------ -/
/- MADDPG placeholder methods of multi_fcnet/td3.py and sac.py        -/
/- ------------------------------------------------------------------ -/

/-- `MultiFeedForwardPolicy._update_maddpg` of `multi_fcnet/td3.py`: the body
is `pass`, so the method returns `None` and leaves the policy state (of any
type `σ`) unchanged. -/
def td3_update_maddpg {σ : Type} (s : σ) (update_actor : Bool) :
    Option Unit × σ :=
  (none, s)

/-- `MultiFeedForwardPolicy._value_maddpg` of `multi_fcnet/td3.py`: body is
`pass`. -/
def td3_value_maddpg {σ Obs Ctx Act : Type} (s : σ) (obs : Obs) (context : Ctx)
    (action : Act) : Option Unit × σ :=
  (none, s)

/-- `MultiFeedForwardPolicy._store_transition_maddpg` of `multi_fcnet/td3.py`:
body is `pass`.  The transition arguments are bundled into one tuple type. -/
def td3_store_transition_maddpg {σ Args : Type} (s : σ) (args : Args) :
    Option Unit × σ :=
  (none, s)

/-- `MultiFeedForwardPolicy._get_td_map_maddpg` of `multi_fcnet/td3.py`: body
is `pass`. -/
def td3_get_td_map_maddpg {σ : Type} (s : σ) : Option Unit × σ :=
  (none, s)

/-- `MultiFeedForwardPolicy._update_maddpg` of `multi_fcnet/sac.py`: body is
`pass`. -/
def sac_update_maddpg {σ : Type} (s : σ) (update_actor : Bool) :
    Option Unit × σ :=
  (none, s)

/-- `MultiFeedForwardPolicy._value_maddpg` of `multi_fcnet/sac.py`: body is
`pass`. -/
def sac_value_maddpg {σ Obs Ctx Act : Type} (s : σ) (obs : Obs) (context : Ctx)
    (action : Act) : Option Unit × σ :=
  (none, s)

/-- `MultiFeedForwardPolicy._store_transition_maddpg` of `multi_fcnet/sac.py`:
body is `pass`. -/
def sac_store_transition_maddpg {σ Args : Type} (s : σ) (args : Args) :
    Option Unit × σ :=
  (none, s)

/-- `MultiFeedForwardPolicy._get_td_map_maddpg` of `multi_fcnet/sac.py`: body
is `pass`. -/
def sac_get_td_map_maddpg {σ : Type} (s : σ) : Option Unit × σ :=
  (none, s)

/- ------------------------------------------------------------------ -/
/- hbaselines/envs/mixed_autonomy/params/ring_small.py                -/
/- ------------------------------------------------------------------ -/

/-- Round-half-to-even of the rational `num / den` (`den > 0`), as computed
by Python `round(num / den)`.  For the denominators that occur in
`ring_small.get_flow_params` (at most 22) the float quotient rounds exactly
like the rational, and exact halves are exactly representable, so this is
faithful to the Python semantics on the inputs the code evaluates. -/
def roundHalfEven (num den : ℤ) : ℤ :=
  let q := Int.ediv num den
  let r := Int.emod num den
  if 2 * r < den then q
  else if den < 2 * r then q + 1
  else if Int.emod q 2 = 0 then q else q + 1

/-- The human-vehicle additions of the loop in `ring_small.get_flow_params`
(lines 105-125).  `k` is the number of remaining loop iterations
(`num_automated - i`), `r` is `humans_remaining`; the result is the total
number of human vehicles added by the remaining iterations, each iteration
adding `round(humans_remaining / (num_automated - i))`. -/
def ringHumansAdded : ℕ → ℤ → ℤ
  | 0, _ => 0
  | k + 1, r =>
    let a := roundHalfEven r ((k : ℤ) + 1)
    a + ringHumansAdded k (r - a)

/-- `vehicles.num_vehicles` at the end of `ring_small.get_flow_params`:
one automated vehicle per iteration plus all human additions, starting from
`humans_remaining = 22 - num_automated`. -/
def ringNumVehicles (numAutomated : ℕ) : ℤ :=
  (numAutomated : ℤ) + ringHumansAdded numAutomated (22 - (numAutomated : ℤ))

/- ------------------------------------------------------------------ -/
/- hbaselines/ppo/cmd_util.py : parse_unknown_args                    -/
/- ------------------------------------------------------------------ -/

/-- A Python string, modelled as a list of characters. -/
abbrev PyStr := List Char

/-- A Python dict from strings to strings, modelled as an association list
where an assignment to a present key replaces its value in place. -/
abbrev PyDict := List (PyStr × PyStr)

/-- Python `retval[key] = value`: replace the value of a present key,
otherwise append the new binding. -/
def dictSet (d : PyDict) (k v : PyStr) : PyDict :=
  match d with
  | [] => [(k, v)]
  | (k0, v0) :: rest =>
    if k0 = k then (k0, v) :: rest else (k0, v0) :: dictSet rest k v

/-- Python `d[key]` as an option: the value bound to `k`, if any. -/
def dictGet (d : PyDict) (k : PyStr) : Option PyStr :=
  match d with
  | [] => none
  | (k0, v0) :: rest => if k0 = k then some v0 else dictGet rest k

/-- Python `arg.startswith('--')`. -/
def startsWithDashDash : PyStr → Bool
  | '-' :: '-' :: _ => true
  | _ => false

/-- Python `'=' in arg`. -/
def hasEq (s : PyStr) : Bool :=
  s.any (fun c => c == '=')

/-- Python `arg.split('=')` (split on every occurrence of `'='`). -/
def splitOnEqAux : PyStr → PyStr → List PyStr
  | [], acc => [acc.reverse]
  | c :: rest, acc =>
    if c == '=' then acc.reverse :: splitOnEqAux rest []
    else splitOnEqAux rest (c :: acc)

/-- Python `arg.split('=')`. -/
def splitOnEq (s : PyStr) : List PyStr :=
  splitOnEqAux s []

/-- Python `arg.split('=')[0][2:]`, the key of a `--key=value` token. -/
def pyKeyOf (arg : PyStr) : PyStr :=
  (splitOnEq arg).headI.drop 2

/-- Python `arg.split('=')[1]`, the value of a `--key=value` token (the text
between the first and the second `'='`, or to the end of the token when there
is only one `'='`). -/
def pyValOf (arg : PyStr) : PyStr :=
  (splitOnEq arg).getD 1 []

/-- The loop state of `parse_unknown_args`: the dict built so far, the
`preceded_by_key` flag, and the current value of the Python variable
`key` (read only when the flag is set). -/
structure PUAState where
  retval : PyDict
  precededByKey : Bool
  key : PyStr
deriving DecidableEq

/-- One iteration of the loop of `parse_unknown_args`
(`ppo/cmd_util.py` lines 175-186).  Note that the `--key=value` branch
assigns `key` but does not reset `preceded_by_key`. -/
def puaStep (st : PUAState) (arg : PyStr) : PUAState :=
  if startsWithDashDash arg then
    if hasEq arg then
      { st with
        retval := dictSet st.retval (pyKeyOf arg) (pyValOf arg)
        key := pyKeyOf arg }
    else
      { st with precededByKey := true, key := arg.drop 2 }
  else if st.precededByKey then
    { st with retval := dictSet st.retval st.key arg, precededByKey := false }
  else st

/-- `parse_unknown_args(args)` of `ppo/cmd_util.py`. -/
def parse_unknown_args (args : List PyStr) : PyDict :=
  (args.foldl puaStep ⟨[], false, []⟩).retval

/-- The dictionary described by the claim, word for word: a `--k=v` token
contributes `k ↦ v`; a bare `--k` token followed immediately by a token not
starting with `--` contributes `k ↦` that token (which is consumed); every
other token not starting with `--` contributes nothing. -/
def claimParseAux : List PyStr → PyDict → PyDict
  | [], d => d
  | a :: rest, d =>
    if startsWithDashDash a then
      if hasEq a then claimParseAux rest (dictSet d (pyKeyOf a) (pyValOf a))
      else
        match rest with
        | [] => d
        | b :: rest2 =>
          if startsWithDashDash b then claimParseAux (b :: rest2) d
          else claimParseAux rest2 (dictSet d (a.drop 2) b)
    else claimParseAux rest d

/-- The claim-described parse, starting from an empty dict. -/
def claimParse (args : List PyStr) : PyDict :=
  claimParseAux args []

/-- The amended description of `parse_unknown_args`: a pending key is
carried as an option.  A `--k=v` token contributes `k ↦ v` and, when a value
is pending, renames the pending key to `k`; a bare `--k` token makes `k` the
pending key; a token not starting with `--` is assigned to the pending key
when one exists (clearing it) and contributes nothing otherwise. -/
def amendedParseAux : List PyStr → PyDict → Option PyStr → PyDict
  | [], d, _ => d
  | a :: rest, d, pend =>
    if startsWithDashDash a then
      if hasEq a then
        amendedParseAux rest (dictSet d (pyKeyOf a) (pyValOf a))
          (pend.map (fun _ => pyKeyOf a))
      else amendedParseAux rest d (some (a.drop 2))
    else
      match pend with
      | some k => amendedParseAux rest (dictSet d k a) none
      | none => amendedParseAux rest d none

/-- The amended parse, starting from an empty dict and no pending key. -/
def amendedParse (args : List PyStr) : PyDict :=
  amendedParseAux args [] none

/- ------------------------------------------------------------------ -/
/- Replay buffer (hbaselines/multi_fcnet/replay_buffer.py)            -/
/- ------------------------------------------------------------------ -/

/-- Modelled from the spec: the configuration error raised by the
`MultiReplayBuffer` constructor on a non-positive capacity or batch size
(the class implementation `multi_fcnet/replay_buffer.py` is not among the
provided sources). -/
inductive ConfigError where
  | invalidParams
deriving DecidableEq

/-- Modelled from the spec: the error raised by `sample` on an empty
buffer. -/
inductive SampleError where
  | insufficientData
deriving DecidableEq

/-- Modelled from the spec: the state of a `MultiReplayBuffer` — a
fixed-capacity circular store of transitions (of abstract type `α`) with a
write cursor and a count of valid entries.  Slot `j` of the backing store
holds `none` until first written. -/
structure MultiReplayBuffer (α : Type) where
  capacity : ℕ
  batchSize : ℕ
  storage : ℕ → Option α
  cursor : ℕ
  count : ℕ

/-- Modelled from the spec: a freshly constructed buffer — empty storage,
cursor and count zero. -/
def MultiReplayBuffer.empty (α : Type) (capacity batchSize : ℕ) :
    MultiReplayBuffer α :=
  ⟨capacity, batchSize, fun _ => none, 0, 0⟩

/-- Modelled from the spec: the `MultiReplayBuffer` constructor, taking the
Python integers `buffer_size` and `batch_size` and raising a configuration
error when either is non-positive. -/
def MultiReplayBuffer.create (α : Type) (buffer_size batch_size : ℤ) :
    Except ConfigError (MultiReplayBuffer α) :=
  if buffer_size ≤ 0 ∨ batch_size ≤ 0 then
    Except.error ConfigError.invalidParams
  else
    Except.ok (MultiReplayBuffer.empty α buffer_size.toNat batch_size.toNat)

/-- Modelled from the spec: `add(transition)` — insert at the write cursor,
advance the cursor modulo the capacity, increment the count up to the
capacity. -/
def MultiReplayBuffer.add {α : Type} (b : MultiReplayBuffer α) (t : α) :
    MultiReplayBuffer α :=
  { b with
    storage := fun j => if j = b.cursor then some t else b.storage j
    cursor := (b.cursor + 1) % b.capacity
    count := min (b.count + 1) b.capacity }

/-- Modelled from the spec: `size()` returns the count of valid entries. -/
def MultiReplayBuffer.size {α : Type} (b : MultiReplayBuffer α) : ℕ :=
  b.count

/-- The physical slot of the `i`-th oldest stored transition: the count
entries before the cursor, oldest first, wrapping around the ring. -/
def MultiReplayBuffer.slot {α : Type} (b : MultiReplayBuffer α) (i : ℕ) : ℕ :=
  (b.cursor + b.capacity - b.count + i) % b.capacity

/-- The stored transitions, oldest first. -/
def MultiReplayBuffer.contents {α : Type} (b : MultiReplayBuffer α) :
    List α :=
  (List.range b.count).filterMap (fun i => b.storage (b.slot i))

/-- Modelled from the spec: `sample(batch_size)` — raise
`InsufficientDataError` when the count is zero, otherwise draw `batch_size`
indices uniformly from `[0, count)` and return the corresponding stored
transitions.  The randomness is an oracle `draw`; the `i`-th drawn index is
`draw i % count`, which ranges over exactly `[0, count)`. -/
def MultiReplayBuffer.sample {α : Type} (b : MultiReplayBuffer α)
    (batch_size : ℕ) (draw : ℕ → ℕ) : Except SampleError (List α) :=
  if b.count = 0 then Except.error SampleError.insufficientData
  else
    Except.ok ((List.range batch_size).filterMap
      (fun i => b.storage (b.slot (draw i % b.count))))

/-- An operation on a replay buffer: a mutating `add` or a read-only
`sample`. -/
inductive BufferOp (α : Type) where
  | add (t : α)
  | sample (batch_size : ℕ) (draw : ℕ → ℕ)

/-- Modelled from the spec: run one buffer operation, returning the new
buffer state and the sample result when the operation was a sample.
`add` mutates the buffer and returns nothing; `sample` reads the buffer
without mutating it. -/
def MultiReplayBuffer.runOp {α : Type} (b : MultiReplayBuffer α) :
    BufferOp α → MultiReplayBuffer α × Option (Except SampleError (List α))
  | BufferOp.add t => (b.add t, none)
  | BufferOp.sample batch_size draw => (b, some (b.sample batch_size draw))

/-- The buffer obtained by adding the transitions of `ts`, in order, to a
fresh buffer of capacity `C` and batch size `B`. -/
def mkBuffer {α : Type} (C B : ℕ) (ts : List α) : MultiReplayBuffer α :=
  ts.foldl MultiReplayBuffer.add (MultiReplayBuffer.empty α C B)

/- ------------------------------------------------------------------ -/
/- Target update scheduler (hbaselines/utils/tf_util.py)              -/
/- ------------------------------------------------------------------ -/

/-- Modelled from the spec: one `soft_update(tau)` step on a parameter set —
for every parameter independently, the new target value is
`(1 - tau) * target + tau * online`.  Parameters are indexed by an abstract
type `P` and valued in `ℚ` (exact arithmetic in place of floats); the op
construction `_setup_target_updates` is not among the provided sources. -/
def soft_update {P : Type} (tau : ℚ) (target online : P → ℚ) : P → ℚ :=
  fun p => (1 - tau) * target p + tau * online p

/-- Modelled from the spec: the target-initialization op run by
`_initialize_maddpg` — assign every online parameter value to the
corresponding target parameter. -/
def init_target_update {P : Type} (target online : P → ℚ) : P → ℚ :=
  fun p => online p

/-- `_initialize_maddpg` of `multi_fcnet/td3.py` with `shared = True`, and
of `multi_fcnet/sac.py`: run the single target-initialization op. -/
def init_maddpg_shared {P : Type} (target online : P → ℚ) : P → ℚ :=
  init_target_update target online

/-- `_initialize_maddpg` of `multi_fcnet/td3.py` with `shared = False`: run
the target-initialization op of every agent key. -/
def init_maddpg_indep {K P : Type} (targets onlines : K → P → ℚ) :
    K → P → ℚ :=
  fun k => init_target_update (targets k) (onlines k)

/- ------------------------------------------------------------------ -/
/- Theorems                                                           -/
/- ------------------------------------------------------------------ -/

/-- C9: in `highway_single.get_flow_params` with `multiagent=False`, the code
selects `AVOpenEnv` when `imitation=True` and `AVOpenImitationEnv` when
`imitation=False` — the opposite of the claim and of the function's own
docstring, whose `imitation` flag is documented as selecting the imitation
environment. -/
theorem highway_single_env_name_branches_swapped :
    highwaySingleEnvName false true = some HighwayEnv.avOpenEnv ∧
    highwaySingleEnvName false false = some HighwayEnv.avOpenImitationEnv :=
  ⟨rfl, rfl⟩

/-- C5: the MADDPG methods `_update_maddpg`, `_value_maddpg`,
`_store_transition_maddpg` and `_get_td_map_maddpg` of the multi-agent TD3
and SAC feedforward policies are `pass` placeholders: on every input they
return `None` and leave the policy state (hence every replay buffer in it)
unchanged. -/
theorem maddpg_placeholder_methods_return_none :
    ∀ (σ Obs Ctx Act Args : Type) (s : σ) (ua : Bool) (obs : Obs) (ctx : Ctx)
      (act : Act) (args : Args),
      td3_update_maddpg s ua = (none, s) ∧
      td3_value_maddpg s obs ctx act = (none, s) ∧
      td3_store_transition_maddpg s args = (none, s) ∧
      td3_get_td_map_maddpg s = (none, s) ∧
      sac_update_maddpg s ua = (none, s) ∧
      sac_value_maddpg s obs ctx act = (none, s) ∧
      sac_store_transition_maddpg s args = (none, s) ∧
      sac_get_td_map_maddpg s = (none, s) := by
  intros
  exact ⟨rfl, rfl, rfl, rfl, rfl, rfl, rfl, rfl⟩

/-- C3: one `soft_update(tau)` call sets every target parameter
independently to `(1-tau)*target + tau*online`; with `tau=1` the new target
equals the online value exactly, and with `tau=0` the target is
unchanged. -/
theorem soft_update_convex_combination {P : Type} (tau : ℚ)
    (target online : P → ℚ) (p : P) :
    soft_update tau target online p = (1 - tau) * target p + tau * online p ∧
    soft_update 1 target online p = online p ∧
    soft_update 0 target online p = target p := by
  refine ⟨rfl, ?_, ?_⟩ <;> simp [soft_update]

/-- C4: after `_initialize_maddpg` (shared and independent variants), every
target parameter value equals the corresponding online parameter value
exactly, for every prior target parameter state. -/
theorem init_maddpg_sets_target_to_online {K P : Type}
    (target online : P → ℚ) (targets onlines : K → P → ℚ) (p : P) (k : K) :
    init_maddpg_shared target online p = online p ∧
    init_maddpg_indep targets onlines k p = onlines k p :=
  ⟨rfl, rfl⟩

/-- C8: for `1 ≤ num_automated ≤ 22`, the rounded per-iteration shares of
remaining human vehicles in `ring_small.get_flow_params` sum to exactly
`22 - num_automated`, so `vehicles.num_vehicles` is exactly 22 and the
assertion `vehicles.num_vehicles == 22` never fails. -/
theorem ring_small_vehicle_count_is_22 (n : ℕ) (h1 : 1 ≤ n) (h2 : n ≤ 22) :
    ringHumansAdded n (22 - (n : ℤ)) = 22 - (n : ℤ) ∧
      ringNumVehicles n = 22 := by
  have h : ∀ m : ℕ, m < 23 → 1 ≤ m →
      (ringHumansAdded m (22 - (m : ℤ)) = 22 - (m : ℤ) ∧
        ringNumVehicles m = 22) := by decide
  exact h n (by omega) h1

/-- Witness for C8 at `num_automated = 4`. -/
theorem ring_small_vehicle_count_is_22_witness :
    (1 ≤ 4 ∧ 4 ≤ 22) ∧
      (ringHumansAdded 4 (22 - ((4 : ℕ) : ℤ)) = 22 - ((4 : ℕ) : ℤ) ∧
        ringNumVehicles 4 = 22) :=
  ⟨⟨by decide, by decide⟩,
    ring_small_vehicle_count_is_22 4 (by decide) (by decide)⟩

/-- C10 counterexample: on the argument list `['--a', '--b=c', 'd']` the
code returns `{'b': 'd'}` — the `--b=c` branch does not clear the
`preceded_by_key` flag set by the bare `--a`, so the plain token `d`
overwrites the value of `b` — while the claim requires `{'b': 'c'}`, since
`d` does not immediately follow a bare `--k` token. -/
theorem parse_unknown_args_claim_false :
    parse_unknown_args [['-', '-', 'a'], ['-', '-', 'b', '=', 'c'], ['d']] ≠
      claimParse [['-', '-', 'a'], ['-', '-', 'b', '=', 'c'], ['d']] := by
  decide

/-- Auxiliary: the loop of `parse_unknown_args`, started in any state,
computes the amended description, where the pending key is `key` exactly
when `preceded_by_key` is set. -/
theorem foldl_puaStep_eq_amended (args : List PyStr) :
    ∀ (d : PyDict) (pbk : Bool) (key : PyStr),
      (List.foldl puaStep ⟨d, pbk, key⟩ args).retval =
        amendedParseAux args d (if pbk then some key else none) := by
  induction args with
  | nil => intro d pbk key; cases pbk <;> rfl
  | cons a rest ih =>
    intro d pbk key
    rcases hs : startsWithDashDash a with _ | _ <;>
      rcases he : hasEq a with _ | _ <;> cases pbk <;>
        simp [List.foldl_cons, puaStep, amendedParseAux, hs, he, ih]

/-- Auxiliary: a `filterMap` over `List.range k` whose function returns the
successive elements of `l` starting at offset `off` is `l.drop off`. -/
theorem filterMap_range_eq_drop {γ : Type} :
    ∀ (k off : ℕ) (f : ℕ → Option γ) (l : List γ),
      l.length = off + k → (∀ i, i < k → f i = l[off + i]?) →
      (List.range k).filterMap f = l.drop off := by
  intro k
  induction k with
  | zero =>
    intro off f l hlen _
    simp [List.drop_of_length_le (by omega : l.length ≤ off)]
  | succ k ih =>
    intro off f l hlen h
    have hoff : off < l.length := by omega
    have h0 : f 0 = some (l.get ⟨off, hoff⟩) := by
      have := h 0 (by omega)
      simpa [List.getElem?_eq_getElem hoff] using this
    rw [List.range_succ_eq_map, List.filterMap_cons, h0, List.filterMap_map]
    have htail : (List.range k).filterMap (f ∘ Nat.succ) = l.drop (off + 1) := by
      refine ih (off + 1) (f ∘ Nat.succ) l (by omega) ?_
      intro i hi
      have := h (i + 1) (by omega)
      simpa [Function.comp, Nat.succ_eq_add_one, Nat.add_assoc,
        Nat.add_comm 1 i, Nat.add_left_comm] using this
    rw [htail, List.drop_eq_getElem_cons hoff]
    rfl

/-- Auxiliary: a `filterMap` whose function is everywhere `some` preserves
the length. -/
theorem length_filterMap_of_isSome {γ δ : Type} (f : γ → Option δ) :
    ∀ (l : List γ), (∀ x ∈ l, (f x).isSome) →
      (l.filterMap f).length = l.length := by
  intro l
  induction l with
  | nil => intro _; rfl
  | cons a l ih =>
    intro h
    have ha : (f a).isSome := h a (by simp)
    obtain ⟨y, hy⟩ := Option.isSome_iff_exists.mp ha
    rw [List.filterMap_cons, hy]
    simp only [List.length_cons]
    rw [ih (fun x hx => h x (by simp [hx]))]

/-- Characterization of a buffer built by a sequence of `add` calls on a
fresh buffer of capacity `C > 0`: the capacity and batch size are unchanged,
the cursor is the number of adds modulo `C`, the count is capped at `C`, and
slot `j` holds the most recently added transition whose position in the add
sequence is congruent to `j` modulo `C` (and `none` when no add ever wrote
slot `j`). -/
theorem mkBuffer_spec {α : Type} (C B : ℕ) (hC : 0 < C) (ts : List α) :
    (mkBuffer C B ts).capacity = C ∧
    (mkBuffer C B ts).batchSize = B ∧
    (mkBuffer C B ts).cursor = ts.length % C ∧
    (mkBuffer C B ts).count = min ts.length C ∧
    ∀ j, (mkBuffer C B ts).storage j =
      if j < min ts.length C then
        ts[ts.length - 1 - ((ts.length - 1 - j) % C)]?
      else none := by
  induction ts using List.reverseRecOn with
  | nil =>
    refine ⟨rfl, rfl, by simp [mkBuffer, MultiReplayBuffer.empty], by
      simp [mkBuffer, MultiReplayBuffer.empty], ?_⟩
    intro j
    simp [mkBuffer, MultiReplayBuffer.empty]
  | append_singleton ts t ih =>
    obtain ⟨hcap, hbatch, hcur, hcount, hstore⟩ := ih
    have hfold : mkBuffer C B (ts ++ [t]) = (mkBuffer C B ts).add t := by
      simp [mkBuffer, List.foldl_append]
    have hlen : (ts ++ [t]).length = ts.length + 1 := by simp
    refine ⟨?_, ?_, ?_, ?_, ?_⟩
    · rw [hfold]; simpa [MultiReplayBuffer.add] using hcap
    · rw [hfold]; simpa [MultiReplayBuffer.add] using hbatch
    · rw [hfold, hlen]
      simp only [MultiReplayBuffer.add, hcap, hcur]
      exact Nat.ModEq.add_right 1 (Nat.mod_modEq ts.length C)
    · rw [hfold, hlen]
      simp only [MultiReplayBuffer.add, hcap, hcount]
      omega
    · intro j
      rw [hfold, hlen]
      simp only [MultiReplayBuffer.add, hcur, hstore j, Nat.add_sub_cancel]
      by_cases hj : j = ts.length % C
      · subst hj
        set n := ts.length with hn
        have hc1 : n % C < C := Nat.mod_lt _ hC
        have hc2 : n % C ≤ n := Nat.mod_le n C
        rw [if_pos rfl, if_pos (by omega)]
        have h1 : n - n % C = C * (n / C) := by
          have := Nat.div_add_mod n C
          omega
        rw [h1, Nat.mul_mod_right, Nat.sub_zero,
          List.getElem?_append_right (le_refl n), Nat.sub_self]
        rfl
      · rw [if_neg hj]
        set n := ts.length with hn
        by_cases hjC : j < C
        · by_cases hjn : j < n
          · rw [if_pos (by omega : j < min n C), if_pos (by omega : j < min (n + 1) C)]
            set m := n - j with hm
            set d := m % C with hd
            have hdlt : d < C := Nat.mod_lt _ hC
            have hdm : d ≤ m := Nat.mod_le m C
            have hsplit : C * (m / C) + d = m := Nat.div_add_mod m C
            have hd0 : d ≠ 0 := by
              intro h0
              apply hj
              have hnj : n = j + C * (m / C) := by omega
              rw [hnj, Nat.add_mul_mod_self_left, Nat.mod_eq_of_lt hjC]
            have hidx_old : (n - 1 - j) % C = d - 1 := by
              have h2 : n - 1 - j = (d - 1) + C * (m / C) := by omega
              rw [h2, Nat.add_mul_mod_self_left, Nat.mod_eq_of_lt (by omega)]
            rw [hidx_old]
            have e1 : n - 1 - (d - 1) = n - d := by omega
            rw [e1, List.getElem?_append, if_pos (by omega : n - d < ts.length)]
          · have hjn2 : j ≠ n := by
              intro h
              apply hj
              rw [h, Nat.mod_eq_of_lt (by omega : n < C)]
            rw [if_neg (by omega : ¬ j < min n C),
              if_neg (by omega : ¬ j < min (n + 1) C)]
        · rw [if_neg (by omega : ¬ j < min n C),
            if_neg (by omega : ¬ j < min (n + 1) C)]

/-- Auxiliary: recovering the add-sequence position of a stored transition
from its ring slot. -/
theorem ring_index_recover (C n m : ℕ) (hC : 0 < C) (hmn : m < n)
    (hnm : n - m ≤ C) :
    n - 1 - ((n - 1 - m % C) % C) = m := by
  have hp : m % C ≤ m := Nat.mod_le m C
  have hsplit : C * (m / C) + m % C = m := Nat.div_add_mod m C
  have h2 : n - 1 - m % C = (n - 1 - m) + C * (m / C) := by omega
  rw [h2, Nat.add_mul_mod_self_left, Nat.mod_eq_of_lt (by omega : n - 1 - m < C)]
  omega

/-- Auxiliary: the `i`-th oldest logical entry of a buffer built from the
add sequence `ts` is the transition added at position
`ts.length - min ts.length C + i`. -/
theorem mkBuffer_storage_slot {α : Type} (C B : ℕ) (hC : 0 < C) (ts : List α)
    (i : ℕ) (hi : i < min ts.length C) :
    (mkBuffer C B ts).storage ((mkBuffer C B ts).slot i) =
      ts[ts.length - min ts.length C + i]? ∧
    ts.length - min ts.length C + i < ts.length := by
  obtain ⟨hcap, -, hcur, hcount, hstore⟩ := mkBuffer_spec C B hC ts
  have hslot : (mkBuffer C B ts).slot i =
      (ts.length - min ts.length C + i) % C := by
    rw [MultiReplayBuffer.slot, hcap, hcur, hcount]
    rcases le_or_lt C ts.length with hCn | hnC
    · rw [min_eq_right hCn]
      have e : ts.length % C + C - C + i = ts.length % C + i := by omega
      rw [e, Nat.mod_add_mod]
      have e2 : ts.length + i = (ts.length - C + i) + C := by omega
      rw [e2, Nat.add_mod_right]
    · rw [min_eq_left (le_of_lt hnC)]
      have e : ts.length % C + C - ts.length + i = i + C := by
        rw [Nat.mod_eq_of_lt hnC]; omega
      rw [e, Nat.add_mod_right]
      have e2 : ts.length - ts.length + i = i := by omega
      rw [e2]
  have hq : (ts.length - min ts.length C + i) % C < min ts.length C := by
    rcases le_or_lt C ts.length with hCn | hnC
    · have h1 : (ts.length - min ts.length C + i) % C < C := Nat.mod_lt _ hC
      omega
    · have e2 : ts.length - min ts.length C + i = i := by omega
      rw [e2, Nat.mod_eq_of_lt (by omega : i < C)]
      omega
  refine ⟨?_, by omega⟩
  rw [hslot, hstore ((ts.length - min ts.length C + i) % C), if_pos hq,
    ring_index_recover C ts.length (ts.length - min ts.length C + i) hC
      (by omega) (by omega)]

/-- Auxiliary: the logical contents of a buffer built from the add sequence
`ts` are the most recent `min ts.length C` transitions, oldest first. -/
theorem mkBuffer_contents {α : Type} (C B : ℕ) (hC : 0 < C) (ts : List α) :
    (mkBuffer C B ts).contents = ts.drop (ts.length - C) := by
  obtain ⟨-, -, -, hcount, -⟩ := mkBuffer_spec C B hC ts
  have hmain : (List.range (min ts.length C)).filterMap
      (fun i => (mkBuffer C B ts).storage ((mkBuffer C B ts).slot i)) =
      ts.drop (ts.length - min ts.length C) := by
    apply filterMap_range_eq_drop
    · omega
    · intro i hi
      exact (mkBuffer_storage_slot C B hC ts i hi).1
  have hdrop : ts.length - min ts.length C = ts.length - C := by omega
  rw [MultiReplayBuffer.contents, hcount, hmain, hdrop]

/-- Auxiliary: an element located by `getElem?` at an index at least `k` is
an element of `drop k`. -/
theorem mem_drop_of_getElem {γ : Type} (l : List γ) (k m : ℕ) (x : γ)
    (hkm : k ≤ m) (hx : l[m]? = some x) : x ∈ l.drop k := by
  have h1 : (l.drop k)[m - k]? = some x := by
    rw [List.getElem?_drop]
    have e : k + (m - k) = m := by omega
    rw [e, hx]
  exact List.getElem?_mem h1

/-- C1: a buffer of capacity `C > 0` built by any sequence of `add` calls
has count `min (number of adds) C` (never exceeding `C`), a write cursor
that advanced modulo `C`, and retains exactly the most recent
`min (number of adds) C` transitions in FIFO-eviction order. -/
theorem replay_buffer_ring_fifo {α : Type} (C B : ℕ) (hC : 0 < C)
    (ts : List α) :
    (mkBuffer C B ts).size = min ts.length C ∧
    (mkBuffer C B ts).size ≤ C ∧
    (mkBuffer C B ts).cursor = ts.length % C ∧
    (mkBuffer C B ts).contents = ts.drop (ts.length - C) := by
  obtain ⟨-, -, hcur, hcount, -⟩ := mkBuffer_spec C B hC ts
  refine ⟨hcount, ?_, hcur, mkBuffer_contents C B hC ts⟩
  show (mkBuffer C B ts).count ≤ C
  omega

/-- Witness for C1: capacity 3, adds [0, 1, 2, 3]. -/
theorem replay_buffer_ring_fifo_witness :
    0 < 3 ∧
      ((mkBuffer 3 2 [0, 1, 2, 3]).size = min ([0, 1, 2, 3] : List ℕ).length 3 ∧
        (mkBuffer 3 2 [0, 1, 2, 3]).size ≤ 3 ∧
        (mkBuffer 3 2 [0, 1, 2, 3]).cursor = ([0, 1, 2, 3] : List ℕ).length % 3 ∧
        (mkBuffer 3 2 [0, 1, 2, 3]).contents =
          ([0, 1, 2, 3] : List ℕ).drop (([0, 1, 2, 3] : List ℕ).length - 3)) :=
  ⟨by decide, replay_buffer_ring_fifo 3 2 (by decide) [0, 1, 2, 3]⟩

/-- C2: `sample` fails with `InsufficientDataError` exactly when the count
is zero; on a buffer built by adds with nonzero count it returns a batch of
exactly `batch_size` transitions, all of them stored in the buffer. -/
theorem replay_buffer_sample_spec {α : Type} (C B bs : ℕ) (hC : 0 < C)
    (ts : List α) (draw : ℕ → ℕ) :
    (∀ b : MultiReplayBuffer α,
        b.sample bs draw = Except.error SampleError.insufficientData ↔
          b.count = 0) ∧
    ((mkBuffer C B ts).count ≠ 0 →
      ∃ res, (mkBuffer C B ts).sample bs draw = Except.ok res ∧
        res.length = bs ∧ ∀ x ∈ res, x ∈ (mkBuffer C B ts).contents) := by
  constructor
  · intro b
    rw [MultiReplayBuffer.sample]
    by_cases h : b.count = 0
    · simp [h]
    · simp [h]
  · intro h
    obtain ⟨-, -, -, hcount, -⟩ := mkBuffer_spec C B hC ts
    have hpos : 0 < (mkBuffer C B ts).count := Nat.pos_of_ne_zero h
    refine ⟨(List.range bs).filterMap
        (fun i => (mkBuffer C B ts).storage
          ((mkBuffer C B ts).slot (draw i % (mkBuffer C B ts).count))),
      ?_, ?_, ?_⟩
    · rw [MultiReplayBuffer.sample, if_neg h]
    · refine Eq.trans (length_filterMap_of_isSome _ _ ?_) (List.length_range bs)
      intro i _
      have hidx : draw i % (mkBuffer C B ts).count < min ts.length C := by
        have := Nat.mod_lt (draw i) hpos
        omega
      rw [(mkBuffer_storage_slot C B hC ts _ hidx).1,
        List.getElem?_eq_getElem (mkBuffer_storage_slot C B hC ts _ hidx).2]
      rfl
    · intro x hx
      rw [List.mem_filterMap] at hx
      obtain ⟨i, -, hfi⟩ := hx
      have hidx : draw i % (mkBuffer C B ts).count < min ts.length C := by
        have := Nat.mod_lt (draw i) hpos
        omega
      rw [(mkBuffer_storage_slot C B hC ts _ hidx).1] at hfi
      rw [mkBuffer_contents C B hC ts]
      exact mem_drop_of_getElem ts _ _ x (by omega) hfi

/-- Witness for C2: capacity 2, adds [7, 8, 9], batch size 3. -/
theorem replay_buffer_sample_spec_witness :
    (0 < 2 ∧ (mkBuffer 2 1 [7, 8, 9]).count ≠ 0) ∧
      (∃ res, (mkBuffer 2 1 [7, 8, 9]).sample 3 (fun i => i) = Except.ok res ∧
        res.length = 3 ∧ ∀ x ∈ res, x ∈ (mkBuffer 2 1 [7, 8, 9]).contents) :=
  ⟨⟨by decide, by decide⟩,
    (replay_buffer_sample_spec 2 1 3 (by decide) [7, 8, 9] (fun i => i)).2
      (by decide)⟩

/-- C6: constructing the replay buffer with a non-positive capacity or a
non-positive batch size raises a configuration error, and construction with
positive capacity and batch size succeeds. -/
theorem replay_buffer_create_validates (α : Type)
    (buffer_size batch_size : ℤ) :
    (MultiReplayBuffer.create α buffer_size batch_size =
        Except.error ConfigError.invalidParams ↔
      buffer_size ≤ 0 ∨ batch_size ≤ 0) ∧
    (0 < buffer_size → 0 < batch_size →
      MultiReplayBuffer.create α buffer_size batch_size =
        Except.ok (MultiReplayBuffer.empty α buffer_size.toNat
          batch_size.toNat)) := by
  constructor
  · by_cases h : buffer_size ≤ 0 ∨ batch_size ≤ 0
    · simp [MultiReplayBuffer.create, h]
    · simp [MultiReplayBuffer.create, h]
  · intro h1 h2
    rw [MultiReplayBuffer.create, if_neg (by omega)]

/-- Witness for C6: capacity 64, batch size 32. -/
theorem replay_buffer_create_validates_witness :
    ((0 : ℤ) < 64 ∧ (0 : ℤ) < 32) ∧
      MultiReplayBuffer.create ℕ 64 32 =
        Except.ok (MultiReplayBuffer.empty ℕ (64 : ℤ).toNat (32 : ℤ).toNat) :=
  ⟨⟨by decide, by decide⟩,
    (replay_buffer_create_validates ℕ 64 32).2 (by decide) (by decide)⟩

/-- C7: on a buffer with nonzero count, a `sample` operation leaves the
buffer state (storage, cursor, count, hence contents) unchanged, and the
results of sample calls do not depend on the order in which they are
interleaved. -/
theorem replay_buffer_sample_pure {α : Type} (b : MultiReplayBuffer α)
    (bs1 bs2 : ℕ) (d1 d2 : ℕ → ℕ) (h : 0 < b.count) :
    (b.runOp (BufferOp.sample bs1 d1)).1 = b ∧
    ((b.runOp (BufferOp.sample bs1 d1)).1.contents = b.contents ∧
      (b.runOp (BufferOp.sample bs1 d1)).1.cursor = b.cursor ∧
      (b.runOp (BufferOp.sample bs1 d1)).1.count = b.count) ∧
    ((b.runOp (BufferOp.sample bs1 d1)).1.sample bs2 d2 = b.sample bs2 d2 ∧
      (b.runOp (BufferOp.sample bs2 d2)).1.sample bs1 d1 = b.sample bs1 d1) :=
  ⟨rfl, ⟨rfl, rfl, rfl⟩, rfl, rfl⟩

/-- Witness for C7: the buffer built from capacity 2 and adds [4, 5]. -/
theorem replay_buffer_sample_pure_witness :
    0 < (mkBuffer 2 1 [4, 5]).count ∧
      (((mkBuffer 2 1 [4, 5]).runOp (BufferOp.sample 1 (fun i => i))).1 =
          mkBuffer 2 1 [4, 5] ∧
        (((mkBuffer 2 1 [4, 5]).runOp (BufferOp.sample 1 (fun i => i))).1.contents =
            (mkBuffer 2 1 [4, 5]).contents ∧
          ((mkBuffer 2 1 [4, 5]).runOp (BufferOp.sample 1 (fun i => i))).1.cursor =
            (mkBuffer 2 1 [4, 5]).cursor ∧
          ((mkBuffer 2 1 [4, 5]).runOp (BufferOp.sample 1 (fun i => i))).1.count =
            (mkBuffer 2 1 [4, 5]).count) ∧
        (((mkBuffer 2 1 [4, 5]).runOp (BufferOp.sample 1 (fun i => i))).1.sample 2
              (fun i => i + 1) =
            (mkBuffer 2 1 [4, 5]).sample 2 (fun i => i + 1) ∧
          ((mkBuffer 2 1 [4, 5]).runOp (BufferOp.sample 2 (fun i => i + 1))).1.sample 1
              (fun i => i) =
            (mkBuffer 2 1 [4, 5]).sample 1 (fun i => i))) :=
  ⟨by decide,
    replay_buffer_sample_pure (mkBuffer 2 1 [4, 5]) 1 2 (fun i => i)
      (fun i => i + 1) (by decide)⟩

/-- C10 amended: `parse_unknown_args` computes the dict described with an
explicit pending key: a `--k=v` token contributes `k ↦ v` and renames any
pending key to `k`; a bare `--k` token makes `k` pending; a token not
starting with `--` is assigned to the pending key when one exists, clearing
it, and contributes nothing otherwise. -/
theorem parse_unknown_args_eq_amendedParse (args : List PyStr) :
    parse_unknown_args args = amendedParse args := by
  have h := foldl_puaStep_eq_amended args [] false []
  simpa [parse_unknown_args, amendedParse] using h

end HBaselines
